import Mathlib

/-!
Verification development for the contract-template service
(`backend/services/document_parser.py`, `variable_extractor.py`,
`document_generator.py` and the diagnostic scanners).

Text is modelled as `List Char` (a Python `str` is a sequence of code
points).  Each definition is a shallow embedding of one Python function,
named after it where Lean allows.
-/

/-- Python strings are sequences of code points. -/
abbrev Str := List Char

/-- Whitespace characters stripped by Python's `str.strip()`. -/
def isPySpace (c : Char) : Bool :=
  c = ' ' || c = '\t' || c = '\n' || c = '\r' || c = '\x0b' || c = '\x0c'

/-- Python `str.strip()`: drop leading and trailing whitespace. -/
def pyStrip (s : Str) : Str :=
  ((s.dropWhile isPySpace).reverse.dropWhile isPySpace).reverse

/-- Python `sep.join(xs)`. -/
def pyJoin (sep : Str) : List Str → Str
  | [] => []
  | [x] => x
  | x :: xs => x ++ sep ++ pyJoin sep xs

/-- Python `str.lower()`, restricted to the ASCII range actually used by
the service (CJK characters are unaffected by `lower` in both models). -/
def pyLower (s : Str) : Str :=
  s.map Char.toLower

/-- Paragraph separator inserted by `extract_text` (`"\n\n".join`). -/
def sepPara : Str := ['\n', '\n']

/-- Cell separator used inside a table row (`' | '.join`). -/
def sepCell : Str := [' ', '|', ' ']

/-- Row separator used inside a table (`'\n'.join`). -/
def sepRow : Str := ['\n']

/-- A table row is the list of its cells' texts (`cell.text`). -/
abbrev Row := List Str

/-- A top-level body element of the document: `doc.element.body` yields
paragraphs (`w:p`) and tables (`w:tbl`) in reading order. -/
inductive DocumentNode
  | para (text : Str)
  | table (rows : List Row)
deriving DecidableEq

/-- One row of `DocumentParser._extract_table_text_ordered`: stripped,
non-empty cell texts joined by `' | '`; a row with no such cell yields
nothing. -/
def rowText (row : Row) : Option Str :=
  let cells := (row.map pyStrip).filter (· ≠ [])
  if cells = [] then none else some (pyJoin sepCell cells)

/-- `DocumentParser._extract_table_text_ordered`: rows rendered by
`rowText` and joined with newlines. -/
def tableText (rows : List Row) : Str :=
  pyJoin sepRow (rows.filterMap rowText)

/-- The text block one body element contributes to `extract_text`
(`none` when the element is skipped because its text is falsy). -/
def blockText : DocumentNode → Option Str
  | .para t => let s := pyStrip t; if s = [] then none else some s
  | .table rows => let s := tableText rows; if s = [] then none else some s

/-- `DocumentParser.extract_text`: walk the body elements in document
order, collect the non-empty blocks and join them with blank lines. -/
def extractText (body : List DocumentNode) : Str :=
  pyJoin sepPara (body.filterMap blockText)

/-- Attempts to match the regex `\{\{([^}]+)\}\}` at the head of the
input, mirroring a Python `re` match attempt: `[^}]+` greedily takes
every non-`}` character (giving characters back cannot help, as a
returned character can never match `}`), and the match succeeds when the
run is non-empty and is followed by two closing braces.  Returns the
captured label and the input after the match. -/
def matchDoubleAt : Str → Option (Str × Str)
  | '{' :: '{' :: rest =>
    match rest.dropWhile (· ≠ '}') with
    | '}' :: '}' :: rest2 =>
      if rest.takeWhile (· ≠ '}') = [] then none
      else some (rest.takeWhile (· ≠ '}'), rest2)
    | _ => none
  | _ => none

theorem length_dropWhile_le (p : Char → Bool) (l : Str) :
    (l.dropWhile p).length ≤ l.length := by
  induction l with
  | nil => simp
  | cons c cs ih =>
    rw [List.dropWhile_cons]
    split
    · exact Nat.le_succ_of_le ih
    · simp

theorem matchDoubleAt_some_length {s cap rest : Str}
    (h : matchDoubleAt s = some (cap, rest)) : rest.length < s.length := by
  rw [matchDoubleAt.eq_def] at h
  split at h
  · next r =>
    split at h
    · next rest2 hd =>
      split at h
      · exact absurd h (by simp)
      · have hlen : ('}' :: '}' :: rest2).length ≤ r.length := by
          rw [← hd]; exact length_dropWhile_le _ r
        simp only [Option.some.injEq, Prod.mk.injEq] at h
        obtain ⟨-, rfl⟩ := h
        simp only [List.length_cons] at hlen ⊢
        omega
    · exact absurd h (by simp)
  · exact absurd h (by simp)

/-- `re.findall(r'\{\{([^}]+)\}\}', text)`: scan left to right; on a
match continue after it, otherwise advance one character (Python's
regex engine restarts the attempt at the next position). -/
def scanDouble (s : Str) : List Str :=
  match hm : matchDoubleAt s with
  | some (cap, rest) => cap :: scanDouble rest
  | none =>
    match s with
    | [] => []
    | _ :: cs => scanDouble cs
termination_by s.length
decreasing_by
  · exact matchDoubleAt_some_length hm
  · simp

theorem scanDouble_nil : scanDouble [] = [] := by
  rw [scanDouble.eq_def]; rfl

theorem scanDouble_cons {s cap rest : Str}
    (h : matchDoubleAt s = some (cap, rest)) :
    scanDouble s = cap :: scanDouble rest := by
  rw [scanDouble.eq_def]
  split
  · next cap2 rest2 hm => rw [h] at hm; cases hm; rfl
  · next hm => rw [h] at hm; cases hm

theorem scanDouble_advance {c : Char} {cs : Str}
    (h : matchDoubleAt (c :: cs) = none) :
    scanDouble (c :: cs) = scanDouble cs := by
  rw [scanDouble.eq_def]
  split
  · next cap2 rest2 hm => rw [h] at hm; cases hm
  · rfl

/-- Fuel-indexed clone of `scanDouble`, provably equal to it whenever the
fuel covers the input length; being structurally recursive it lets the
kernel evaluate concrete instances. -/
def scanDoubleFuel : Nat → Str → List Str
  | 0, _ => []
  | fuel + 1, s =>
    match matchDoubleAt s with
    | some (cap, rest) => cap :: scanDoubleFuel fuel rest
    | none =>
      match s with
      | [] => []
      | _ :: cs => scanDoubleFuel fuel cs

theorem scanDouble_eq_fuel : ∀ fuel s, s.length ≤ fuel →
    scanDouble s = scanDoubleFuel fuel s := by
  intro fuel
  induction fuel with
  | zero =>
    intro s hs
    have : s = [] := List.eq_nil_of_length_eq_zero (Nat.le_zero.mp hs)
    subst this; exact scanDouble_nil
  | succ n ih =>
    intro s hs
    rcases hm : matchDoubleAt s with - | ⟨cap, rest⟩
    · rcases s with - | ⟨c, cs⟩
      · exact scanDouble_nil
      · rw [scanDouble_advance hm]
        simp only [scanDoubleFuel]
        rw [hm]
        exact ih cs (by simpa using Nat.le_of_succ_le_succ hs)
    · rw [scanDouble_cons hm]
      simp only [scanDoubleFuel]
      rw [hm]
      have := matchDoubleAt_some_length hm
      rw [ih rest (by omega)]

theorem scanDouble_eval (s : Str) : scanDouble s = scanDoubleFuel s.length s :=
  scanDouble_eq_fuel _ _ le_rfl

/-- A rendering context: trimmed placeholder label to substitution text.
`DocumentGenerator.render` passes its (preprocessed) context to
`docxtpl`/Jinja2, which is outside this repository. -/
abbrev RenderCtx := Str → Option Str

/-- Modelled from the spec: the substitution step of `RenderEngine` /
`DocumentGenerator.render`.  The actual substitution is performed by the
external `docxtpl`/Jinja2 engine; per the spec it replaces every
double-brace marker by the value bound to its (trimmed) label, and a
missing value renders as the empty string (Jinja2's default undefined,
the spec's `MissingValueForPlaceholder` policy). -/
def renderChars (ctx : RenderCtx) (s : Str) : Str :=
  match hm : matchDoubleAt s with
  | some (cap, rest) => (ctx (pyStrip cap)).getD [] ++ renderChars ctx rest
  | none =>
    match s with
    | [] => []
    | c :: cs => c :: renderChars ctx cs
termination_by s.length
decreasing_by
  · exact matchDoubleAt_some_length hm
  · simp

theorem renderChars_nil (ctx : RenderCtx) : renderChars ctx [] = [] := by
  rw [renderChars.eq_def]; rfl

theorem renderChars_cons {s cap rest : Str} (ctx : RenderCtx)
    (h : matchDoubleAt s = some (cap, rest)) :
    renderChars ctx s = (ctx (pyStrip cap)).getD [] ++ renderChars ctx rest := by
  rw [renderChars.eq_def]
  split
  · next cap2 rest2 hm => rw [h] at hm; cases hm; rfl
  · next hm => rw [h] at hm; cases hm

theorem renderChars_advance {c : Char} {cs : Str} (ctx : RenderCtx)
    (h : matchDoubleAt (c :: cs) = none) :
    renderChars ctx (c :: cs) = c :: renderChars ctx cs := by
  rw [renderChars.eq_def]
  split
  · next cap2 rest2 hm => rw [h] at hm; cases hm
  · rfl

/-- Fuel-indexed clone of `renderChars` for kernel evaluation. -/
def renderCharsFuel (ctx : RenderCtx) : Nat → Str → Str
  | 0, _ => []
  | fuel + 1, s =>
    match matchDoubleAt s with
    | some (cap, rest) => (ctx (pyStrip cap)).getD [] ++ renderCharsFuel ctx fuel rest
    | none =>
      match s with
      | [] => []
      | c :: cs => c :: renderCharsFuel ctx fuel cs

theorem renderChars_eq_fuel (ctx : RenderCtx) : ∀ fuel s, s.length ≤ fuel →
    renderChars ctx s = renderCharsFuel ctx fuel s := by
  intro fuel
  induction fuel with
  | zero =>
    intro s hs
    have : s = [] := List.eq_nil_of_length_eq_zero (Nat.le_zero.mp hs)
    subst this; exact renderChars_nil ctx
  | succ n ih =>
    intro s hs
    rcases hm : matchDoubleAt s with - | ⟨cap, rest⟩
    · rcases s with - | ⟨c, cs⟩
      · exact renderChars_nil ctx
      · rw [renderChars_advance ctx hm]
        simp only [renderCharsFuel]
        rw [hm]
        rw [ih cs (by simpa using Nat.le_of_succ_le_succ hs)]
    · rw [renderChars_cons ctx hm]
      simp only [renderCharsFuel]
      rw [hm]
      have := matchDoubleAt_some_length hm
      rw [ih rest (by omega)]

theorem renderChars_eval (ctx : RenderCtx) (s : Str) :
    renderChars ctx s = renderCharsFuel ctx s.length s :=
  renderChars_eq_fuel ctx _ _ le_rfl

/-- Python string comparison `a < b` (lexicographic on code points). -/
def lexLt : Str → Str → Bool
  | [], [] => false
  | [], _ :: _ => true
  | _ :: _, [] => false
  | a :: as, b :: bs => if a = b then lexLt as bs else decide (a < b)

/-- Insert into a sorted duplicate-free list, keeping it so. -/
def insertSorted (x : Str) : List Str → List Str
  | [] => [x]
  | y :: ys =>
    if x = y then y :: ys
    else if lexLt x y then x :: y :: ys
    else y :: insertSorted x ys

/-- Python `sorted(list(set(xs)))` for strings: the sorted list of the
distinct elements. -/
def sortedUnique (xs : List Str) : List Str :=
  xs.foldl (fun acc x => insertSorted x acc) []

/-- `DocumentParser.extract_placeholders`: `re.findall` of the
double-brace pattern over the reading-order text, then
`sorted(list(set(...)))`. -/
def extract_placeholders (body : List DocumentNode) : List Str :=
  sortedUnique (scanDouble (extractText body))

/-- Python substring test (`pat in s`). -/
def isSubstring (pat : Str) (s : Str) : Bool :=
  pat.isPrefixOf s ||
  match s with
  | [] => false
  | _ :: cs => isSubstring pat cs

/-- Characters treated as word characters by the `re.sub` in
`_normalize_name` (`[^\w一-鿿]`): Python's Unicode `\w` covers
ASCII letters, digits, the underscore and — among much else — the CJK
range the service actually uses. -/
def isWordChar (c : Char) : Bool :=
  c.isAlphanum || c = '_' || (0x4e00 ≤ c.toNat && c.toNat ≤ 0x9fff)

/-- True when the character lies in the CJK unified range checked by the
`re.search(r'[一-鿿]', name)` fallback of `_normalize_name`. -/
def isCJK (c : Char) : Bool :=
  0x4e00 ≤ c.toNat && c.toNat ≤ 0x9fff

/-- Python `s.replace(pat, rep)`: left-to-right, non-overlapping
replacement of every occurrence (callers always pass a non-empty
pattern). -/
def replaceAll (pat rep : Str) (s : Str) : Str :=
  match s with
  | [] => []
  | c :: cs =>
    if h : pat ≠ [] ∧ pat.isPrefixOf (c :: cs) then
      rep ++ replaceAll pat rep ((c :: cs).drop pat.length)
    else
      c :: replaceAll pat rep cs
termination_by s.length
decreasing_by
  · rcases h with ⟨hne, -⟩
    have : 1 ≤ pat.length := by
      cases pat with
      | nil => exact absurd rfl hne
      | cons p ps => simp
    simp only [List.length_drop, List.length_cons]
    omega
  · simp

/-- The hand-written pinyin table of `_normalize_name`, in source order. -/
def pinyinMap : List (Str × Str) :=
  [("甲方".data, "party_a".data), ("乙方".data, "party_b".data),
   ("公司".data, "company".data), ("名称".data, "name".data),
   ("日期".data, "date".data), ("金额".data, "amount".data),
   ("地址".data, "address".data), ("电话".data, "phone".data),
   ("邮箱".data, "email".data), ("联系人".data, "contact".data),
   ("签订".data, "sign".data), ("合同".data, "contract".data),
   ("编号".data, "number".data), ("付款".data, "payment".data),
   ("方式".data, "method".data), ("时间".data, "time".data),
   ("交付".data, "delivery".data)]

/-- Python `'_'.strip` on both ends (`name.strip('_')`). -/
def stripUnderscores (s : Str) : Str :=
  ((s.dropWhile (· = '_')).reverse.dropWhile (· = '_')).reverse

/-- `VariableExtractor._normalize_name`: substitute `_` for non-word
characters, apply the pinyin table (condition tested on the label,
replacement applied to the name), lowercase, strip underscores, and fall
back to the label with spaces/dashes replaced when CJK characters
remain. -/
def normalizeName (label : Str) : Str :=
  let name0 := label.map (fun c => if isWordChar c then c else '_')
  let name1 := pinyinMap.foldl
    (fun n zh_en => if isSubstring zh_en.1 label then replaceAll zh_en.1 zh_en.2 n else n)
    name0
  let name2 := stripUnderscores (pyLower name1)
  if name2.any isCJK then
    label.map (fun c => if c = ' ' || c = '-' then '_' else c)
  else name2

/-- True when any of the keywords occurs as a substring. -/
def containsAny (l : Str) (kws : List Str) : Bool :=
  kws.any (fun k => isSubstring k l)

/-- `VariableExtractor._infer_type`: keyword classification of a label. -/
def inferType (label : Str) : String :=
  let l := pyLower label
  if containsAny l ["日期".data, "时间".data, "date".data, "time".data] then "date"
  else if containsAny l ["金额".data, "数量".data, "价格".data, "费用".data,
      "amount".data, "price".data, "quantity".data] then "number"
  else if containsAny l ["邮箱".data, "email".data, "电子邮件".data] then "email"
  else if containsAny l ["电话".data, "手机".data, "phone".data, "mobile".data,
      "联系方式".data] then "phone"
  else if containsAny l ["性别".data, "状态".data, "类型".data, "gender".data,
      "status".data, "type".data] then "select"
  else if containsAny l ["地址".data, "说明".data, "备注".data, "描述".data,
      "address".data, "description".data, "note".data, "remark".data] then "textarea"
  else "text"

/-- `VariableExtractor._get_default_options`. -/
def defaultOptions (label : Str) : List Str :=
  let l := pyLower label
  if isSubstring "性别".data l || isSubstring "gender".data l then
    ["男".data, "女".data, "其他".data]
  else if isSubstring "状态".data l || isSubstring "status".data l then
    ["待处理".data, "进行中".data, "已完成".data]
  else if isSubstring "类型".data l || isSubstring "type".data l then
    ["类型A".data, "类型B".data, "类型C".data]
  else ["选项1".data, "选项2".data, "选项3".data]

/-- One variable dict built by `_extract_variables_test_mode`. -/
structure PyVariable where
  name : Str
  label : Str
  vtype : String
  required : Bool
  description : Str
  placeholder : Str
  format : Option String
  options : Option (List Str)
deriving DecidableEq

/-- The variable dict `_extract_variables_test_mode` builds for one new
(already stripped) label. -/
def mkTestVariable (q : Str) : PyVariable :=
  let t := inferType q
  { name := normalizeName q
    label := q
    vtype := t
    required := true
    description := "请填写".data ++ q
    placeholder := "请输入".data ++ q
    format := if t = "date" then some "YYYY-MM-DD" else none
    options := if t = "select" then some (defaultOptions q) else none }

/-- The loop of `_extract_variables_test_mode`: strip each capture, skip
it when already seen, otherwise record it and emit its variable. -/
def testModeVarsAux (seen : List Str) : List Str → List PyVariable
  | [] => []
  | p :: ps =>
    let q := pyStrip p
    if q ∈ seen then testModeVarsAux seen ps
    else mkTestVariable q :: testModeVarsAux (q :: seen) ps

/-- `VariableExtractor._extract_variables_test_mode`: double-brace
captures of the text, deduplicated by stripped label in first-occurrence
order, each expanded to a variable dict. -/
def testModeVars (text : Str) : List PyVariable :=
  testModeVarsAux [] (scanDouble text)

/-- An item of the JSON list an oracle response decodes to; `none`
fields model absent keys (`_parse_response` checks key presence). -/
structure RawItem where
  name : Option Str
  label : Option Str
  vtype : Option Str
deriving DecidableEq

/-- Outcome of the external oracle call as seen by
`VariableExtractor.extract_variables`: transport/HTTP failure, a
response `_parse_response` cannot decode (its `ValueError`), or a
decoded item list. -/
inductive OracleOutcome
  | failure (msg : Str)
  | badJson (raw : Str)
  | ok (items : List RawItem)
deriving DecidableEq

/-- The validation filter of `_parse_response`: keep an item only when
`name`, `label` and `type` are all present. -/
def itemValid (i : RawItem) : Bool :=
  i.name.isSome && i.label.isSome && i.vtype.isSome

/-- A variable returned by `extract_variables`: either a validated
oracle item or a locally inferred test-mode variable. -/
inductive ExtractedVar
  | fromOracle (item : RawItem)
  | fromTest (v : PyVariable)
deriving DecidableEq

/-- `VariableExtractor.extract_variables`: test mode goes straight to
local inference; otherwise the oracle's decoded items are filtered by
`itemValid`, and any oracle failure (transport error or undecodable
response — both raise and are caught) falls back to local inference. -/
def extract_variables (testMode : Bool) (oracle : OracleOutcome) (text : Str) :
    List ExtractedVar :=
  if testMode then (testModeVars text).map .fromTest
  else
    match oracle with
    | .ok items => (items.filter itemValid).map .fromOracle
    | _ => (testModeVars text).map .fromTest

/-- Warning text for a document with no extractable content. -/
def warnNoContent : Str := "文档没有可提取的文本内容".data

/-- Warning text for suspiciously short content. -/
def warnTooShort : Str := "文档内容过少，可能不是有效的合同模板".data

/-- Warning text for suspiciously long content. -/
def warnTooLong : Str := "文档内容过长，处理可能需要较长时间".data

/-- Number of top-level tables (`doc.tables`). -/
def countTables (body : List DocumentNode) : Nat :=
  (body.filter fun n => match n with | .table _ => true | _ => false).length

/-- Number of top-level paragraphs (`doc.paragraphs`). -/
def countParas (body : List DocumentNode) : Nat :=
  (body.filter fun n => match n with | .para _ => true | _ => false).length

/-- The dict built by `DocumentParser.validate` (its success path; the
`except` branch only triggers when the underlying docx library fails,
which is outside this text-level model). -/
structure ValidationResult where
  valid : Bool
  text_length : Nat
  has_content : Bool
  has_tables : Bool
  has_paragraphs : Bool
  warnings : List Str
deriving DecidableEq

/-- `DocumentParser.validate`: always `valid = True` on the success
path; warnings appended for no content, short content, long content. -/
def validate (body : List DocumentNode) : ValidationResult :=
  let text := extractText body
  { valid := true
    text_length := text.length
    has_content := decide (0 < text.length)
    has_tables := decide (0 < countTables body)
    has_paragraphs := decide (0 < countParas body)
    warnings :=
      (if 0 < text.length then [] else [warnNoContent]) ++
      (if text.length < 50 then [warnTooShort] else []) ++
      (if 100000 < text.length then [warnTooLong] else []) }

/-- A Python value passed in a generation context.  `bool` is kept as a
separate constructor, but note that in Python `bool` is a subtype of
`int`, so `isinstance(value, (int, float))` is also true for booleans —
the embedding of `_preprocess_context` reflects that.  Floats are
modelled as rationals (every literal in the service's data is an exact
decimal). -/
inductive PyValue
  | none
  | str (s : Str)
  | int (n : Int)
  | float (q : ℚ)
  | bool (b : Bool)
  | other (tag : Str)
deriving DecidableEq

/-- `DocumentGenerator._is_date_string`: the three anchored shape
regexes `^\d{4}-\d{2}-\d{2}$`, `^\d{4}/\d{2}/\d{2}$`,
`^\d{4}\.\d{2}\.\d{2}$` (shape only, no calendar validation). -/
def is_date_string (s : Str) : Bool :=
  match s with
  | [y1, y2, y3, y4, t1, m1, m2, t2, d1, d2] =>
    (y1.isDigit && y2.isDigit && y3.isDigit && y4.isDigit &&
     m1.isDigit && m2.isDigit && d1.isDigit && d2.isDigit) &&
    ((t1 = '-' && t2 = '-') || (t1 = '/' && t2 = '/') || (t1 = '.' && t2 = '.'))
  | _ => false

/-- Gregorian leap year, as `datetime` implements it. -/
def isLeap (y : Nat) : Bool :=
  (y % 4 = 0 && y % 100 ≠ 0) || y % 400 = 0

/-- Days in a month, as `datetime` validates them. -/
def daysInMonth (y m : Nat) : Nat :=
  if m = 2 then (if isLeap y then 29 else 28)
  else if m = 4 || m = 6 || m = 9 || m = 11 then 30
  else 31

/-- Calendar validity enforced by `datetime.strptime` (`ValueError`
otherwise); `datetime.MINYEAR` is 1. -/
def isValidDate (y m d : Nat) : Bool :=
  1 ≤ y && y ≤ 9999 && 1 ≤ m && m ≤ 12 && 1 ≤ d && d ≤ daysInMonth y m

/-- Two-digit decimal numeral, zero-padded (strftime `%m` / `%d`). -/
def pad2 (n : Nat) : Str :=
  let ds := Nat.toDigits 10 n
  if ds.length < 2 then '0' :: ds else ds

/-- One `datetime.strptime(s, '%Y<sep>%m<sep>%d')` attempt.  Callers
reach this only through the fixed-width shape gate `_is_date_string`,
so the widths here are fixed; success requires a valid calendar date. -/
def strptimeYMD (sep : Char) (s : Str) : Option (Nat × Nat × Nat) :=
  match s with
  | [y1, y2, y3, y4, t1, m1, m2, t2, d1, d2] =>
    if (y1.isDigit && y2.isDigit && y3.isDigit && y4.isDigit &&
        m1.isDigit && m2.isDigit && d1.isDigit && d2.isDigit) &&
       t1 = sep && t2 = sep then
      let y := ((y1.toNat - 48) * 10 + (y2.toNat - 48)) * 100 +
               ((y3.toNat - 48) * 10 + (y4.toNat - 48))
      let m := (m1.toNat - 48) * 10 + (m2.toNat - 48)
      let d := (d1.toNat - 48) * 10 + (d2.toNat - 48)
      if isValidDate y m d then some (y, m, d) else none
    else none
  | _ => none

/-- strftime `'%Y年%m月%d日'`: year unpadded (glibc `%Y`), month and day
zero-padded to two digits. -/
def dateCn (y m d : Nat) : Str :=
  Nat.toDigits 10 y ++ ['年'] ++ pad2 m ++ ['月'] ++ pad2 d ++ ['日']

/-- `DocumentGenerator._format_date`: try the three formats in order;
the first that parses wins; when all raise `ValueError` the original
string is returned unchanged. -/
def format_date (s : Str) : Str :=
  match strptimeYMD '-' s <|> strptimeYMD '/' s <|> strptimeYMD '.' s with
  | some (y, m, d) => dateCn y m d
  | none => s

/-- Round-half-even of `100 * q` (the rounding `:.2f` performs),
computed directly on the numerator and denominator so that the kernel
can evaluate it: `f` is the floor of `100 * q` and `r2` compares twice
the remainder against the denominator. -/
def roundCents (q : ℚ) : Int :=
  let n : Int := 100 * q.num
  let d : Int := (q.den : Int)
  let f : Int := Int.fdiv n d
  let r2 : Int := 2 * (n - f * d)
  if r2 < d then f
  else if d < r2 then f + 1
  else if f % 2 = 0 then f else f + 1

/-- Insert a comma after every third digit of a reversed digit string. -/
def group3Rev : Str → Str
  | a :: b :: c :: d :: rest => a :: b :: c :: ',' :: group3Rev (d :: rest)
  | l => l

/-- Thousands grouping of a digit string. -/
def group3 (ds : Str) : Str :=
  (group3Rev ds.reverse).reverse

/-- `DocumentGenerator._format_money`: `f"{amount:,.2f}"` — thousands
separators and exactly two decimal places. -/
def format_money (q : ℚ) : Str :=
  let cents := roundCents q
  let n := cents.natAbs
  (if cents < 0 then ['-'] else []) ++
    group3 (Nat.toDigits 10 (n / 100)) ++ ['.'] ++ pad2 (n % 100)

/-- The amount keywords of `_preprocess_context`. -/
def amountKeywords : List Str :=
  ["amount".data, "price".data, "money".data, "fee".data,
   "金额".data, "价格".data, "费用".data]

/-- True when the lowercased key contains an amount keyword. -/
def hasAmountKeyword (key : Str) : Bool :=
  containsAny (pyLower key) amountKeywords

/-- `DocumentGenerator._preprocess_context`, per entry.  Branch order
follows the source: `None`, date-shaped strings, numbers
(`isinstance(value, (int, float))`, which includes `bool`) under an
amount-like key, remaining booleans, everything else unchanged. -/
def preprocessValue (key : Str) : PyValue → PyValue
  | .none => .str []
  | .str s => if is_date_string s then .str (format_date s) else .str s
  | .int n => if hasAmountKeyword key then .str (format_money n) else .int n
  | .float q => if hasAmountKeyword key then .str (format_money q) else .float q
  | .bool b =>
    if hasAmountKeyword key then .str (format_money (if b then 1 else 0))
    else .str (if b then "是".data else "否".data)
  | .other t => .other t

/-- `DocumentGenerator._preprocess_context` over the whole dict. -/
def preprocess_context (ctx : List (Str × PyValue)) : List (Str × PyValue) :=
  ctx.map (fun kv => (kv.1, preprocessValue kv.1 kv.2))

/-- Attempts to match the regex `\{([^{}]+)\}` at the head of the input
(the single-brace scanner of the diagnostic scripts): one opening brace,
a greedy non-empty run of non-brace characters, one closing brace. -/
def matchSingleAt : Str → Option (Str × Str)
  | '{' :: rest =>
    match rest.dropWhile (fun c => c ≠ '{' && c ≠ '}') with
    | '}' :: rest2 =>
      if rest.takeWhile (fun c => c ≠ '{' && c ≠ '}') = [] then none
      else some (rest.takeWhile (fun c => c ≠ '{' && c ≠ '}'), rest2)
    | _ => none
  | _ => none

theorem matchSingleAt_some_length {s cap rest : Str}
    (h : matchSingleAt s = some (cap, rest)) : rest.length < s.length := by
  rw [matchSingleAt.eq_def] at h
  split at h
  · next r =>
    split at h
    · next rest2 hd =>
      split at h
      · exact absurd h (by simp)
      · have hlen : ('}' :: rest2).length ≤ r.length := by
          rw [← hd]; exact length_dropWhile_le _ r
        simp only [Option.some.injEq, Prod.mk.injEq] at h
        obtain ⟨-, rfl⟩ := h
        simp only [List.length_cons] at hlen ⊢
        omega
    · exact absurd h (by simp)
  · exact absurd h (by simp)

/-- `re.findall(r'\{([^{}]+)\}', text)`, scanned like `scanDouble`. -/
def scanSingle (s : Str) : List Str :=
  match hm : matchSingleAt s with
  | some (cap, rest) => cap :: scanSingle rest
  | none =>
    match s with
    | [] => []
    | _ :: cs => scanSingle cs
termination_by s.length
decreasing_by
  · exact matchSingleAt_some_length hm
  · simp

theorem scanSingle_nil : scanSingle [] = [] := by
  rw [scanSingle.eq_def]; rfl

theorem scanSingle_cons {s cap rest : Str}
    (h : matchSingleAt s = some (cap, rest)) :
    scanSingle s = cap :: scanSingle rest := by
  rw [scanSingle.eq_def]
  split
  · next cap2 rest2 hm => rw [h] at hm; cases hm; rfl
  · next hm => rw [h] at hm; cases hm

theorem scanSingle_advance {c : Char} {cs : Str}
    (h : matchSingleAt (c :: cs) = none) :
    scanSingle (c :: cs) = scanSingle cs := by
  rw [scanSingle.eq_def]
  split
  · next cap2 rest2 hm => rw [h] at hm; cases hm
  · rfl

/-- Fuel-indexed clone of `scanSingle` for kernel evaluation. -/
def scanSingleFuel : Nat → Str → List Str
  | 0, _ => []
  | fuel + 1, s =>
    match matchSingleAt s with
    | some (cap, rest) => cap :: scanSingleFuel fuel rest
    | none =>
      match s with
      | [] => []
      | _ :: cs => scanSingleFuel fuel cs

theorem scanSingle_eq_fuel : ∀ fuel s, s.length ≤ fuel →
    scanSingle s = scanSingleFuel fuel s := by
  intro fuel
  induction fuel with
  | zero =>
    intro s hs
    have : s = [] := List.eq_nil_of_length_eq_zero (Nat.le_zero.mp hs)
    subst this; exact scanSingle_nil
  | succ n ih =>
    intro s hs
    rcases hm : matchSingleAt s with - | ⟨cap, rest⟩
    · rcases s with - | ⟨c, cs⟩
      · exact scanSingle_nil
      · rw [scanSingle_advance hm]
        simp only [scanSingleFuel]
        rw [hm]
        exact ih cs (by simpa using Nat.le_of_succ_le_succ hs)
    · rw [scanSingle_cons hm]
      simp only [scanSingleFuel]
      rw [hm]
      have := matchSingleAt_some_length hm
      rw [ih rest (by omega)]

theorem scanSingle_eval (s : Str) : scanSingle s = scanSingleFuel s.length s :=
  scanSingle_eq_fuel _ _ le_rfl

/-- The diagnostic single-brace filter
(`template_comparison_analyzer.analyze_placeholders`):
`[m for m in single_matches if len(m.strip()) > 0 and len(m) < 50 and
not any(c in m for c in '<>')]`. -/
def validSingle (text : Str) : List Str :=
  (scanSingle text).filter
    (fun m => decide (pyStrip m ≠ []) && decide (m.length < 50) &&
      !(m.contains '<') && !(m.contains '>'))

/-- C1: for a document body that interleaves a paragraph `A`, a 2×2
table and a paragraph `B` (each text already stripped and non-empty),
`extract_text` yields `A`, then the table rendered row by row (cells
joined by `' | '`, rows separated by a newline), then `B`, in document
order with blank-line separators. -/
theorem c1_reading_order (A B c11 c12 c21 c22 : Str)
    (hA : pyStrip A = A) (hA0 : A ≠ [])
    (hB : pyStrip B = B) (hB0 : B ≠ [])
    (h11 : pyStrip c11 = c11) (h110 : c11 ≠ [])
    (h12 : pyStrip c12 = c12) (h120 : c12 ≠ [])
    (h21 : pyStrip c21 = c21) (h210 : c21 ≠ [])
    (h22 : pyStrip c22 = c22) (h220 : c22 ≠ []) :
    extractText [.para A, .table [[c11, c12], [c21, c22]], .para B] =
      A ++ sepPara ++ (c11 ++ sepCell ++ c12 ++ sepRow ++ c21 ++ sepCell ++ c22)
        ++ sepPara ++ B := by
  simp [extractText, blockText, rowText, tableText, pyJoin, hA, hB, h11, h12, h21, h22,
        hA0, hB0, h110, h120, h210, h220, List.filter]

/-- Witness for C1 at the concrete document A / 2×2 table / B. -/
theorem c1_reading_order_witness :
    extractText [.para ['A'], .table [[['a'], ['b']], [['c'], ['d']]], .para ['B']] =
      ['A'] ++ sepPara ++ (['a'] ++ sepCell ++ ['b'] ++ sepRow ++ ['c'] ++ sepCell ++ ['d'])
        ++ sepPara ++ ['B'] :=
  c1_reading_order ['A'] ['B'] ['a'] ['b'] ['c'] ['d']
    (by decide) (by decide) (by decide) (by decide) (by decide) (by decide)
    (by decide) (by decide) (by decide) (by decide) (by decide) (by decide)

/-- C10: whitespace-only content never reaches the extracted text: a
paragraph whose text strips to nothing is omitted; within a row, a cell
whose text strips to nothing is omitted; a row with no non-empty cell is
omitted entirely; and a 3-column row with a whitespace-only middle cell
renders as two `' | '`-joined slots, so column positions are not
preserved. -/
theorem c10_whitespace_omitted :
    (∀ pre post t, pyStrip t = [] →
        extractText (pre ++ DocumentNode.para t :: post) = extractText (pre ++ post)) ∧
    (∀ pre post (c : Str), pyStrip c = [] →
        rowText (pre ++ c :: post) = rowText (pre ++ post)) ∧
    (∀ rows1 rows2 row, (∀ c ∈ row, pyStrip c = []) →
        tableText (rows1 ++ row :: rows2) = tableText (rows1 ++ rows2)) ∧
    (∀ a w b, pyStrip w = [] → pyStrip a = a → a ≠ [] → pyStrip b = b → b ≠ [] →
        rowText [a, w, b] = some (a ++ sepCell ++ b)) := by
  refine ⟨?_, ?_, ?_, ?_⟩
  · intro pre post t ht
    simp [extractText, blockText, ht]
  · intro pre post c hc
    simp [rowText, hc]
  · intro rows1 rows2 row hrow
    have hnone : rowText row = none := by
      have : (row.map pyStrip).filter (· ≠ []) = [] := by
        rw [List.filter_eq_nil_iff]
        intro x hx
        rcases List.mem_map.mp hx with ⟨c, hc, rfl⟩
        simp [hrow c hc]
      simp only [rowText, this]
      rfl
    simp [tableText, hnone]
  · intro a w b hw ha ha0 hb hb0
    simp [rowText, hw, ha, hb, ha0, hb0, pyJoin, List.filter]

/-- Witness for C10 at concrete inputs: a whitespace paragraph between
two real ones, a whitespace cell, an all-whitespace row, and the
two-slot rendering of `['a', ' ', 'b']`. -/
theorem c10_whitespace_omitted_witness :
    extractText [DocumentNode.para ['x']] ++ [] =
      extractText ([DocumentNode.para ['x']] ++ [DocumentNode.para [' ', '\t']]) ∧
    rowText [['a'], [' '], ['b']] = some (['a'] ++ sepCell ++ ['b']) := by
  constructor
  · have h := c10_whitespace_omitted.1 [DocumentNode.para ['x']] [] [' ', '\t'] (by decide)
    rw [h]; decide
  · exact c10_whitespace_omitted.2.2.2 ['a'] [' '] ['b']
      (by decide) (by decide) (by decide) (by decide) (by decide)

/-- C9: on the success path `validate` always reports `valid = True`
(so `valid = False` never happens for a structurally readable document,
in particular never merely because the text is empty, short or long);
the warnings are exactly the non-fatal empty-document, too-short and
too-long notices, each present precisely under its condition. -/
theorem c9_validate_nonfatal (body : List DocumentNode) :
    (validate body).valid = true ∧
    (warnNoContent ∈ (validate body).warnings ↔ extractText body = []) ∧
    (warnTooShort ∈ (validate body).warnings ↔ (extractText body).length < 50) ∧
    (warnTooLong ∈ (validate body).warnings ↔ 100000 < (extractText body).length) ∧
    (∀ w ∈ (validate body).warnings,
      w = warnNoContent ∨ w = warnTooShort ∨ w = warnTooLong) := by
  have hns : warnNoContent ≠ warnTooShort := by decide
  have hnl : warnNoContent ≠ warnTooLong := by decide
  have hsl : warnTooShort ≠ warnTooLong := by decide
  have hnil : extractText body = [] ↔ (extractText body).length = 0 :=
    List.length_eq_zero.symm
  refine ⟨rfl, ?_, ?_, ?_, ?_⟩ <;>
  · simp only [validate, List.mem_append]
    by_cases h0 : 0 < (extractText body).length <;>
      by_cases h50 : (extractText body).length < 50 <;>
        by_cases h100 : 100000 < (extractText body).length <;>
          simp_all [hns, hnl, hsl, Ne.symm hns, Ne.symm hnl, Ne.symm hsl] <;>
            first
              | omega
              | (intro hh; rw [hh] at h0; simp at h0)
              | (intro w hw; rcases hw with ⟨-, rfl⟩ | rfl <;> tauto)

/-- Witness for C9 at a one-paragraph document: valid with exactly the
too-short warning. -/
theorem c9_validate_nonfatal_witness :
    (validate [DocumentNode.para ['h', 'i']]).valid = true ∧
    warnTooShort ∈ (validate [DocumentNode.para ['h', 'i']]).warnings ∧
    ¬ warnNoContent ∈ (validate [DocumentNode.para ['h', 'i']]).warnings := by
  obtain ⟨h1, h2, h3, -, -⟩ := c9_validate_nonfatal [DocumentNode.para ['h', 'i']]
  exact ⟨h1, h3.mpr (by decide), fun hmem => absurd (h2.mp hmem) (by decide)⟩

/-- C8: with an oracle configured (non-test mode), `extract_variables`
prefers the oracle's decoded items but keeps only those carrying all of
`name`, `label`, `type`, and on any oracle failure (transport error or
undecodable response) it falls back to the deterministic test-mode
inference and still returns a variable list — never an error. -/
theorem c8_oracle_fallback (text msg raw : Str) (items : List RawItem) :
    (extract_variables false (.failure msg) text = (testModeVars text).map .fromTest) ∧
    (extract_variables false (.badJson raw) text = (testModeVars text).map .fromTest) ∧
    (∀ i, ExtractedVar.fromOracle i ∈ extract_variables false (.ok items) text ↔
        i ∈ items ∧ itemValid i = true) ∧
    (∀ v ∈ extract_variables false (.ok items) text, ∃ i, v = ExtractedVar.fromOracle i) := by
  refine ⟨rfl, rfl, ?_, ?_⟩
  · intro i
    simp [extract_variables, List.mem_filter]
  · intro v hv
    have hv2 : v ∈ (items.filter itemValid).map ExtractedVar.fromOracle := hv
    rcases List.mem_map.mp hv2 with ⟨i, -, rfl⟩
    exact ⟨i, rfl⟩

/-- Witness for C8: a failing oracle falls back to test mode; of two
returned items the complete one is kept and the one missing `name` and
`type` is dropped. -/
theorem c8_oracle_fallback_witness :
    (extract_variables false (.failure ['e']) ['t'] = (testModeVars ['t']).map .fromTest) ∧
    ExtractedVar.fromOracle ⟨some ['n'], some ['l'], some ['d']⟩ ∈
      extract_variables false
        (.ok [⟨some ['n'], some ['l'], some ['d']⟩, ⟨none, some ['l'], none⟩]) ['t'] ∧
    ¬ ExtractedVar.fromOracle ⟨none, some ['l'], none⟩ ∈
      extract_variables false
        (.ok [⟨some ['n'], some ['l'], some ['d']⟩, ⟨none, some ['l'], none⟩]) ['t'] := by
  obtain ⟨h1, -, h3, -⟩ := c8_oracle_fallback ['t'] ['e'] ['r']
    [⟨some ['n'], some ['l'], some ['d']⟩, ⟨none, some ['l'], none⟩]
  exact ⟨h1, (h3 _).mpr (by refine ⟨by decide, by decide⟩),
    fun hmem => absurd ((h3 _).mp hmem).2 (by decide)⟩

/-- Spec-side description of the output order: keep each label's first
occurrence, deleting its later duplicates. -/
def dedupFirst : List Str → List Str
  | [] => []
  | x :: xs => x :: dedupFirst (xs.filter (· ≠ x))
termination_by l => l.length
decreasing_by
  simp only [List.length_cons]
  exact Nat.lt_succ_of_le (List.length_filter_le _ _)

theorem dedupFirst_nil : dedupFirst [] = [] := by rw [dedupFirst.eq_def]

theorem dedupFirst_cons (x : Str) (xs : List Str) :
    dedupFirst (x :: xs) = x :: dedupFirst (xs.filter (· ≠ x)) := by
  rw [dedupFirst.eq_def]

theorem mem_dedupFirst {a : Str} : ∀ {l : List Str}, a ∈ dedupFirst l → a ∈ l := by
  intro l
  induction l using dedupFirst.induct with
  | case1 => simp [dedupFirst_nil]
  | case2 x xs ih =>
    rw [dedupFirst_cons]
    intro h
    rcases List.mem_cons.mp h with rfl | h2
    · exact List.mem_cons_self _ _
    · exact List.mem_cons_of_mem _ (List.mem_of_mem_filter (ih h2))

theorem dedupFirst_nodup : ∀ l : List Str, (dedupFirst l).Nodup := by
  intro l
  induction l using dedupFirst.induct with
  | case1 => simp [dedupFirst_nil]
  | case2 x xs ih =>
    rw [dedupFirst_cons]
    refine List.nodup_cons.mpr ⟨fun hmem => ?_, ih⟩
    have := mem_dedupFirst hmem
    simp at this

theorem testModeVarsAux_labels : ∀ (ps : List Str) (seen : List Str),
    (testModeVarsAux seen ps).map (fun v => v.label) =
      dedupFirst ((ps.map pyStrip).filter (fun q => decide (q ∉ seen))) := by
  intro ps
  induction ps with
  | nil => intro seen; simp [testModeVarsAux, dedupFirst_nil]
  | cons p ps ih =>
    intro seen
    by_cases hmem : pyStrip p ∈ seen
    · have hL : testModeVarsAux seen (p :: ps) = testModeVarsAux seen ps := by
        simp [testModeVarsAux, hmem]
      have hd : decide (pyStrip p ∉ seen) = false := by simp [hmem]
      rw [hL, ih seen, List.map_cons, List.filter_cons, hd]
      simp
    · have hL : testModeVarsAux seen (p :: ps) =
          mkTestVariable (pyStrip p) :: testModeVarsAux (pyStrip p :: seen) ps := by
        simp [testModeVarsAux, hmem]
      have hd : decide (pyStrip p ∉ seen) = true := by simp [hmem]
      rw [hL, List.map_cons, ih (pyStrip p :: seen), List.map_cons, List.filter_cons, hd]
      have hlab : (mkTestVariable (pyStrip p)).label = pyStrip p := rfl
      rw [hlab]
      simp only [if_true]
      rw [dedupFirst_cons]
      congr 1
      rw [List.filter_filter]
      congr 1
      apply List.filter_congr
      intro x _
      by_cases h1 : x = pyStrip p <;> by_cases h2 : x ∈ seen <;> simp [h1, h2]

/-- Evaluation bridge for `extract_placeholders` on concrete inputs. -/
theorem extract_placeholders_eval (body : List DocumentNode) :
    extract_placeholders body =
      sortedUnique (scanDoubleFuel (extractText body).length (extractText body)) := by
  simp only [extract_placeholders, ← scanDouble_eval]

/-- Evaluation bridge for `testModeVars` on concrete inputs. -/
theorem testModeVars_eval (t : Str) :
    testModeVars t = testModeVarsAux [] (scanDoubleFuel t.length t) := by
  simp only [testModeVars, ← scanDouble_eval]

/-- C2 (amended): the test-mode variable list is deduplicated by
whitespace-trimmed label in first-occurrence order — its label list is
exactly `dedupFirst` of the stripped captures, and duplicate-free.
`DocumentParser.extract_placeholders`, by contrast, is sorted (see the
counterexample). -/
theorem c2_first_occurrence_dedup (text : Str) :
    (testModeVars text).map (fun v => v.label) =
      dedupFirst ((scanDouble text).map pyStrip) ∧
    ((testModeVars text).map (fun v => v.label)).Nodup := by
  have h := testModeVarsAux_labels (scanDouble text) []
  have hfil : ((scanDouble text).map pyStrip).filter
      (fun q => decide (q ∉ ([] : List Str))) = (scanDouble text).map pyStrip := by
    simp
  constructor
  · rw [show testModeVars text = testModeVarsAux [] (scanDouble text) from rfl, h, hfil]
  · rw [show testModeVars text = testModeVarsAux [] (scanDouble text) from rfl, h, hfil]
    exact dedupFirst_nodup _

/-- C2 counterexample: `extract_placeholders` sorts the deduplicated raw
captures.  On `{{b}}{{a}}` the first list entry is `a` although `b`
occurs first in the document, and on `{{ x }}{{x}}` two entries survive
whose trimmed labels coincide — so the parser's list is neither ordered
by first occurrence nor deduplicated by trimmed label. -/
theorem c2_counterexample :
    extract_placeholders
        [DocumentNode.para ['{', '{', 'b', '}', '}', '{', '{', 'a', '}', '}']] =
      [['a'], ['b']] ∧
    scanDouble (extractText
        [DocumentNode.para ['{', '{', 'b', '}', '}', '{', '{', 'a', '}', '}']]) =
      [['b'], ['a']] ∧
    extract_placeholders
        [DocumentNode.para ['{', '{', ' ', 'x', ' ', '}', '}', '{', '{', 'x', '}', '}']] =
      [[' ', 'x', ' '], ['x']] ∧
    pyStrip [' ', 'x', ' '] = pyStrip ['x'] := by
  refine ⟨?_, ?_, ?_, by decide⟩
  · rw [extract_placeholders_eval]; decide
  · rw [scanDouble_eval]; decide
  · rw [extract_placeholders_eval]; decide

/-- True when the text contains no two adjacent opening braces, i.e. no
occurrence of the double-brace marker syntax can even start. -/
def noDoubleBrace : Str → Bool
  | [] => true
  | [_] => true
  | c :: c2 :: cs => !(c = '{' && c2 = '{') && noDoubleBrace (c2 :: cs)

theorem matchDoubleAt_some_shape {s cap rest : Str}
    (h : matchDoubleAt s = some (cap, rest)) : ∃ r, s = '{' :: '{' :: r := by
  rw [matchDoubleAt.eq_def] at h
  split at h
  · next r => exact ⟨r, rfl⟩
  · exact absurd h (by simp)

theorem scanDouble_of_noDouble : ∀ s, noDoubleBrace s = true → scanDouble s = [] := by
  intro s
  induction s using scanDouble.induct with
  | case1 s cap rest hm ih =>
    intro hs
    obtain ⟨r, rfl⟩ := matchDoubleAt_some_shape hm
    simp [noDoubleBrace] at hs
  | case2 hm =>
    intro _
    exact scanDouble_nil
  | case3 c cs hm hm2 ih =>
    intro hs
    rw [scanDouble_advance hm]
    apply ih
    rcases cs with - | ⟨c2, cs2⟩
    · rfl
    · simp only [noDoubleBrace, Bool.and_eq_true] at hs
      exact hs.2

/-- C3 (amended): placeholder scanning knows only the double-brace
syntax — there is no single-brace fallback.  A text without adjacent
opening braces yields no captures, no test-mode variables and an empty
`extract_placeholders` list, whatever single-brace markers it holds. -/
theorem c3_no_single_brace_fallback :
    (∀ s, noDoubleBrace s = true → scanDouble s = [] ∧ testModeVars s = []) ∧
    (∀ body, noDoubleBrace (extractText body) = true → extract_placeholders body = []) := by
  constructor
  · intro s hs
    refine ⟨scanDouble_of_noDouble s hs, ?_⟩
    rw [show testModeVars s = testModeVarsAux [] (scanDouble s) from rfl,
      scanDouble_of_noDouble s hs]
    rfl
  · intro body hb
    rw [show extract_placeholders body = sortedUnique (scanDouble (extractText body)) from
      rfl, scanDouble_of_noDouble _ hb]
    rfl

/-- Witness for C3 at a concrete single-brace-only text. -/
theorem c3_no_single_brace_fallback_witness :
    extract_placeholders [DocumentNode.para ['a', '{', 'b', '}', 'c']] = [] ∧
    testModeVars ['a', '{', 'b', '}', 'c'] = [] :=
  ⟨c3_no_single_brace_fallback.2 _ (by decide),
   (c3_no_single_brace_fallback.1 _ (by decide)).2⟩

/-- C3 counterexample: a document whose only marker is the single-brace
`{x}` yields an empty placeholder list — no fallback to the single-brace
syntax happens, although that syntax would have matched `x`. -/
theorem c3_counterexample :
    extract_placeholders [DocumentNode.para ['{', 'x', '}']] = [] ∧
    scanSingle ['{', 'x', '}'] = [['x']] := by
  constructor
  · rw [extract_placeholders_eval]; decide
  · rw [scanSingle_eval]; decide

/-- C4 (amended): the three label checks (non-empty after trim, length
below 50, no angle brackets) exist only in the diagnostic single-brace
scanner, whose kept matches are exactly those passing them.  The main
extraction applies no such checks (see the counterexample). -/
theorem c4_diagnostic_filter_only (text m : Str) :
    m ∈ validSingle text ↔
      m ∈ scanSingle text ∧ pyStrip m ≠ [] ∧ m.length < 50 ∧ ¬ '<' ∈ m ∧ ¬ '>' ∈ m := by
  simp [validSingle, List.mem_filter, and_assoc]

/-- C4 counterexample: `extract_placeholders` reports labels containing
angle brackets, labels longer than 50 characters and labels that are
whitespace-only — none of the three checks is applied on the main path. -/
theorem c4_counterexample :
    extract_placeholders [DocumentNode.para ['{', '{', '<', 'b', '>', '}', '}']] =
      [['<', 'b', '>']] ∧
    extract_placeholders
        [DocumentNode.para (['{', '{'] ++ List.replicate 60 'x' ++ ['}', '}'])] =
      [List.replicate 60 'x'] ∧
    extract_placeholders [DocumentNode.para ['{', '{', ' ', '}', '}']] = [[' ']] ∧
    pyStrip [' '] = [] := by
  refine ⟨?_, ?_, ?_, by decide⟩ <;> (rw [extract_placeholders_eval]; decide)

theorem strptimeYMD_sep_ne {sep : Char} {s : Str} {v : Nat × Nat × Nat}
    (h : strptimeYMD sep s = some v) (c : Char) (hne : c ≠ sep) :
    strptimeYMD c s = none := by
  rw [strptimeYMD.eq_def] at h
  split at h
  · next y1 y2 y3 y4 t1 m1 m2 t2 d1 d2 =>
    split at h
    · next hcond =>
      rw [Bool.and_eq_true, Bool.and_eq_true] at hcond
      obtain ⟨⟨-, ht1⟩, -⟩ := hcond
      rw [decide_eq_true_eq] at ht1
      rw [strptimeYMD.eq_def]
      simp [ht1, hne, Ne.symm hne]
    · exact absurd h (by simp)
  · exact absurd h (by simp)

theorem strptimeYMD_shape {sep : Char} {s : Str} {v : Nat × Nat × Nat}
    (hsep : sep = '-' ∨ sep = '/' ∨ sep = '.')
    (h : strptimeYMD sep s = some v) : is_date_string s = true := by
  rw [strptimeYMD.eq_def] at h
  split at h
  · next y1 y2 y3 y4 t1 m1 m2 t2 d1 d2 =>
    split at h
    · next hcond =>
      rw [Bool.and_eq_true, Bool.and_eq_true] at hcond
      obtain ⟨⟨hdig, ht1⟩, ht2⟩ := hcond
      rw [decide_eq_true_eq] at ht1 ht2
      subst ht1 ht2
      simp only [is_date_string, hdig, Bool.true_and]
      rcases hsep with rfl | rfl | rfl <;> decide
    · exact absurd h (by simp)
  · exact absurd h (by simp)

/-- C6 (amended): the per-value preprocessing map, branch by branch:
null becomes the empty string; a date-shaped string is reformatted to
`YYYY年MM月DD日` only when it parses as a valid calendar date, and passes
through unchanged otherwise; an int/float under an amount-keyword key is
money-formatted; a boolean under an amount-keyword key is also
money-formatted (Python's `bool` is an `int`), and only otherwise
becomes 是/否; everything else passes through unchanged. -/
theorem c6_preprocess_mapping :
    (∀ k, preprocessValue k .none = .str []) ∧
    (∀ k s sep y m d, (sep = '-' ∨ sep = '/' ∨ sep = '.') →
        strptimeYMD sep s = some (y, m, d) →
        preprocessValue k (.str s) = .str (dateCn y m d)) ∧
    (∀ k s, is_date_string s = false → preprocessValue k (.str s) = .str s) ∧
    (∀ k s, strptimeYMD '-' s = none → strptimeYMD '/' s = none →
        strptimeYMD '.' s = none → preprocessValue k (.str s) = .str s) ∧
    (∀ k n, hasAmountKeyword k = true → preprocessValue k (.int n) = .str (format_money n)) ∧
    (∀ k n, hasAmountKeyword k = false → preprocessValue k (.int n) = .int n) ∧
    (∀ k q, hasAmountKeyword k = true → preprocessValue k (.float q) = .str (format_money q)) ∧
    (∀ k q, hasAmountKeyword k = false → preprocessValue k (.float q) = .float q) ∧
    (∀ k b, hasAmountKeyword k = true →
        preprocessValue k (.bool b) = .str (format_money (if b then 1 else 0))) ∧
    (∀ k b, hasAmountKeyword k = false →
        preprocessValue k (.bool b) = .str (if b then "是".data else "否".data)) ∧
    (∀ k t, preprocessValue k (.other t) = .other t) := by
  refine ⟨fun k => rfl, ?_, ?_, ?_, ?_, ?_, ?_, ?_, ?_, ?_, fun k t => rfl⟩
  · intro k s sep y m d hsep h
    have hshape : is_date_string s = true := strptimeYMD_shape hsep h
    have hfd : format_date s = dateCn y m d := by
      rcases hsep with rfl | rfl | rfl
      · simp [format_date, h]
      · simp [format_date, h, strptimeYMD_sep_ne h '-' (by decide)]
      · simp [format_date, h, strptimeYMD_sep_ne h '-' (by decide),
          strptimeYMD_sep_ne h '/' (by decide)]
    simp [preprocessValue, hshape, hfd]
  · intro k s hshape
    simp [preprocessValue, hshape]
  · intro k s h1 h2 h3
    by_cases hshape : is_date_string s = true <;>
      simp [preprocessValue, hshape, format_date, h1, h2, h3]
  · intro k n h; simp [preprocessValue, h]
  · intro k n h; simp [preprocessValue, h]
  · intro k q h; simp [preprocessValue, h]
  · intro k q h; simp [preprocessValue, h]
  · intro k b h; simp [preprocessValue, h]
  · intro k b h; simp [preprocessValue, h]

/-- C6 counterexample: (a) a boolean bound to an amount-keyword key is
money-formatted to `1.00`, not mapped to 是/否 (Python's `bool` passes
`isinstance(value, (int, float))`, checked first); (b) a string matching
the date shape but not a valid calendar date (`2025-13-01`) passes
through unchanged instead of being reformatted. -/
theorem c6_counterexample :
    preprocessValue "amount".data (.bool true) = .str "1.00".data ∧
    is_date_string "2025-13-01".data = true ∧
    preprocessValue ['k'] (.str "2025-13-01".data) = .str "2025-13-01".data := by
  refine ⟨by decide, by decide, by decide⟩

/-- Witness for C6: the claim's own scenario, `1234567.89` under an
amount-keyword key, renders as `1,234,567.89`. -/
theorem c6_preprocess_mapping_witness :
    preprocessValue "contract_amount".data (.float (mkRat 123456789 100)) =
      .str "1,234,567.89".data := by
  have h := c6_preprocess_mapping.2.2.2.2.2.2.1 "contract_amount".data
    (mkRat 123456789 100) (by decide)
  rw [h]
  decide

/-- C7 (amended): a placeholder whose label is unbound renders as the
empty string and never blocks the render (the substitution is total),
but nothing records the missing names: the render's entire result is the
output text, and it is identical to the result of supplying the empty
string for that label — the caller receives no completeness report (the
route's `GenerateResponse` carries only document id, download url,
filename, size and timing). -/
theorem c7_missing_value_policy :
    (∀ (ctx : RenderCtx) (l : Str), ctx l = none → ∀ s,
        renderChars ctx s = renderChars (fun x => if x = l then some [] else ctx x) s) ∧
    (∀ (ctx : RenderCtx) (s cap rest : Str), matchDoubleAt s = some (cap, rest) →
        ctx (pyStrip cap) = none → renderChars ctx s = renderChars ctx rest) := by
  constructor
  · intro ctx l h s
    induction s using scanDouble.induct with
    | case1 s cap rest hm ih =>
      rw [renderChars_cons ctx hm, renderChars_cons _ hm, ih]
      by_cases hx : pyStrip cap = l <;> simp [hx, h]
    | case2 hm => rw [renderChars_nil, renderChars_nil]
    | case3 c cs hm hm2 ih =>
      rw [renderChars_advance ctx hm, renderChars_advance _ hm, ih]
  · intro ctx s cap rest hm h
    rw [renderChars_cons ctx hm, h]
    rfl

/-- Witness for C7: rendering `{{a}}` with nothing bound equals
rendering it with `a` bound to the empty string. -/
theorem c7_missing_value_policy_witness :
    renderChars (fun _ => none) ['{', '{', 'a', '}', '}'] =
      renderChars (fun x => if x = ['a'] then some [] else (fun _ => none) x)
        ['{', '{', 'a', '}', '}'] :=
  c7_missing_value_policy.1 (fun _ => none) ['a'] rfl ['{', '{', 'a', '}', '}']

/-- C7 counterexample: with `a` missing, `x{{a}}y` renders to `xy`
(empty substitution, output still produced), and the result is
indistinguishable from a render where `a` was supplied as the empty
string — so no returned value can list the missing variable names. -/
theorem c7_counterexample :
    renderChars (fun _ => none) ['x', '{', '{', 'a', '}', '}', 'y'] = ['x', 'y'] ∧
    renderChars (fun _ => none) ['x', '{', '{', 'a', '}', '}', 'y'] =
      renderChars (fun l => if l = ['a'] then some [] else none)
        ['x', '{', '{', 'a', '}', '}', 'y'] := by
  constructor
  · rw [renderChars_eval]; decide
  · rw [renderChars_eval, renderChars_eval]; decide

/-- A substitution value is safe when it is non-empty and contains no
brace character. -/
def braceFree (v : Str) : Bool :=
  !(v.contains '{') && !(v.contains '}')

/-- Every bound value is non-empty and brace-free. -/
def CtxGood (ctx : RenderCtx) : Prop :=
  ∀ l v, ctx l = some v → v ≠ [] ∧ braceFree v = true

theorem matchDoubleAt_head_ne {c : Char} {cs : Str} (h : c ≠ '{') :
    matchDoubleAt (c :: cs) = none := by
  rw [matchDoubleAt.eq_def]
  split
  · next r heq =>
    injection heq with h1 _
    exact absurd h1 h
  · rfl

theorem matchDoubleAt_second_ne {c : Char} {cs : Str} (h : c ≠ '{') :
    matchDoubleAt ('{' :: c :: cs) = none := by
  rw [matchDoubleAt.eq_def]
  split
  · next r heq =>
    injection heq with _ h2
    injection h2 with h1 _
    exact absurd h1 h
  · rfl

theorem matchDoubleAt_parts {s cap rest : Str} (h : matchDoubleAt s = some (cap, rest)) :
    ∃ r, s = '{' :: '{' :: r ∧ cap = r.takeWhile (· ≠ '}') ∧
      r.dropWhile (· ≠ '}') = '}' :: '}' :: rest ∧ cap ≠ [] := by
  rw [matchDoubleAt.eq_def] at h
  split at h
  · next r =>
    split at h
    · next rest2 hd =>
      split at h
      · exact absurd h (by simp)
      · next hne =>
        simp only [Option.some.injEq, Prod.mk.injEq] at h
        obtain ⟨rfl, rfl⟩ := h
        exact ⟨r, rfl, rfl, hd, hne⟩
    · exact absurd h (by simp)
  · exact absurd h (by simp)

theorem matchDoubleAt_pos {r rest2 : Str}
    (hd : r.dropWhile (· ≠ '}') = '}' :: '}' :: rest2)
    (hta : r.takeWhile (· ≠ '}') ≠ []) :
    matchDoubleAt ('{' :: '{' :: r) = some (r.takeWhile (· ≠ '}'), rest2) := by
  simp only [matchDoubleAt]
  rw [hd]
  split
  · rename_i rest2x h1 h2
    injection h2 with _ h3
    injection h3 with _ h4
    rw [if_neg hta, ← h4]
  · rename_i w hno
    exact absurd rfl (hno rest2)

theorem matchDoubleAt_none_iff {r : Str} :
    matchDoubleAt ('{' :: '{' :: r) = none ↔
      r.takeWhile (· ≠ '}') = [] ∨ ∀ T2, r.dropWhile (· ≠ '}') ≠ '}' :: '}' :: T2 := by
  constructor
  · intro h
    by_cases hta : r.takeWhile (· ≠ '}') = []
    · exact Or.inl hta
    · right
      intro T2 hd
      rw [matchDoubleAt_pos hd hta] at h
      cases h
  · intro h
    rcases hm : matchDoubleAt ('{' :: '{' :: r) with - | ⟨cap, rest⟩
    · rfl
    · obtain ⟨r2, heq, hcap, hdrop, hne⟩ := matchDoubleAt_parts hm
      injection heq with _ h2
      injection h2 with _ h3
      subst h3
      rcases h with hta | hnd
      · exact absurd hta (hcap ▸ hne)
      · exact absurd hdrop (hnd rest)

theorem dropWhile_append_all {p : Char → Bool} {W T : Str}
    (h : ∀ a ∈ W, p a = true) : (W ++ T).dropWhile p = T.dropWhile p := by
  induction W with
  | nil => rfl
  | cons w W ih =>
    rw [List.cons_append, List.dropWhile_cons, if_pos (h w (List.mem_cons_self w W))]
    exact ih (fun a ha => h a (List.mem_cons_of_mem _ ha))

theorem dropWhile_eq_nil_all {p : Char → Bool} {W : Str}
    (h : ∀ a ∈ W, p a = true) : W.dropWhile p = [] := by
  have := dropWhile_append_all (T := []) h
  simpa using this

/-- The suffix starting at the first `}` either is empty or starts with
`}`. -/
theorem dropWhile_shape (r : Str) :
    r.dropWhile (· ≠ '}') = [] ∨ ∃ T3, r.dropWhile (· ≠ '}') = '}' :: T3 := by
  induction r with
  | nil => exact Or.inl rfl
  | cons c cs ih =>
    rw [List.dropWhile_cons]
    split
    · exact ih
    · next hc =>
      simp only [decide_eq_true_eq, Decidable.not_not] at hc
      exact Or.inr ⟨cs, by rw [hc]⟩

theorem matchDoubleAt_safe_none {W T : Str}
    (hW : ∀ a ∈ W, a ≠ '}')
    (hT0 : T = [] ∨ ∃ T3, T = '}' :: T3)
    (hT2 : ∀ T2, T ≠ '}' :: '}' :: T2) :
    matchDoubleAt (W ++ T) = none := by
  have hWb : ∀ a ∈ W, (fun x => decide (x ≠ '}')) a = true := by
    intro a ha; simpa using hW a ha
  match W, hW with
  | [], _ =>
    rcases hT0 with rfl | ⟨T3, rfl⟩
    · rfl
    · exact matchDoubleAt_head_ne (by decide)
  | [w], hW =>
    by_cases hw : w = '{'
    · subst hw
      rcases hT0 with rfl | ⟨T3, rfl⟩
      · decide
      · exact matchDoubleAt_second_ne (by decide)
    · exact matchDoubleAt_head_ne hw
  | w1 :: w2 :: W2, hW =>
    by_cases h1 : w1 = '{'
    · by_cases h2 : w2 = '{'
      · subst h1; subst h2
        apply matchDoubleAt_none_iff.mpr
        right
        intro T2
        have hW2 : ∀ a ∈ W2, (fun x => decide (x ≠ '}')) a = true := by
          intro a ha
          exact hWb a (List.mem_cons_of_mem _ (List.mem_cons_of_mem _ ha))
        show (W2 ++ T).dropWhile (fun x => decide (x ≠ '}')) ≠ '}' :: '}' :: T2
        rw [dropWhile_append_all hW2]
        rcases hT0 with rfl | ⟨T3, rfl⟩
        · simp
        · rw [List.dropWhile_cons, if_neg (by simp)]
          exact hT2 T2
      · exact h1 ▸ matchDoubleAt_second_ne h2
    · exact matchDoubleAt_head_ne h1

theorem renderChars_prepend_safe (ctx : RenderCtx) {W T : Str}
    (hW : ∀ a ∈ W, a ≠ '}')
    (hT0 : T = [] ∨ ∃ T3, T = '}' :: T3)
    (hT2 : ∀ T2, T ≠ '}' :: '}' :: T2) :
    renderChars ctx (W ++ T) = W ++ renderChars ctx T := by
  induction W with
  | nil => simp
  | cons w W ih =>
    have hm : matchDoubleAt (w :: (W ++ T)) = none := by
      have := matchDoubleAt_safe_none hW hT0 hT2
      simpa using this
    rw [List.cons_append, renderChars_advance ctx hm,
      ih (fun a ha => hW a (List.mem_cons_of_mem _ ha)), List.cons_append]

theorem scanDouble_prepend_safe {W T : Str}
    (hW : ∀ a ∈ W, a ≠ '}')
    (hT0 : T = [] ∨ ∃ T3, T = '}' :: T3)
    (hT2 : ∀ T2, T ≠ '}' :: '}' :: T2) :
    scanDouble (W ++ T) = scanDouble T := by
  induction W with
  | nil => simp
  | cons w W ih =>
    have hm : matchDoubleAt (w :: (W ++ T)) = none := by
      have := matchDoubleAt_safe_none hW hT0 hT2
      simpa using this
    rw [List.cons_append, scanDouble_advance hm,
      ih (fun a ha => hW a (List.mem_cons_of_mem _ ha))]

theorem scanDouble_prepend_nobrace {v t : Str} (hv : ∀ a ∈ v, a ≠ '{') :
    scanDouble (v ++ t) = scanDouble t := by
  induction v with
  | nil => simp
  | cons w W ih =>
    have hm : matchDoubleAt (w :: (W ++ t)) = none :=
      matchDoubleAt_head_ne (hv w (List.mem_cons_self w W))
    rw [List.cons_append, scanDouble_advance hm,
      ih (fun a ha => hv a (List.mem_cons_of_mem _ ha))]

theorem renderChars_head_ne (ctx : RenderCtx) (hGood : CtxGood ctx)
    {z : Char} {T4 : Str} (hz : z ≠ '}')
    (hb : ∀ cap rest, matchDoubleAt (z :: T4) = some (cap, rest) →
      (ctx (pyStrip cap)).isSome = true) :
    ∃ d D, renderChars ctx (z :: T4) = d :: D ∧ d ≠ '}' := by
  rcases hm : matchDoubleAt (z :: T4) with - | ⟨cap, rest⟩
  · exact ⟨z, renderChars ctx T4, renderChars_advance ctx hm, hz⟩
  · have hs := hb cap rest hm
    obtain ⟨v, hv⟩ := Option.isSome_iff_exists.mp hs
    obtain ⟨hne, hbf⟩ := hGood _ _ hv
    rcases v with - | ⟨d, D'⟩
    · exact absurd rfl hne
    · refine ⟨d, D' ++ renderChars ctx rest, ?_, ?_⟩
      · rw [renderChars_cons ctx hm, hv]
        rfl
      · intro hd
        subst hd
        simp [braceFree] at hbf

theorem key_no_new_match (ctx : RenderCtx) (hGood : CtxGood ctx) {cs : Str}
    (hb : ∀ cap ∈ scanDouble ('{' :: cs), (ctx (pyStrip cap)).isSome = true)
    (hm : matchDoubleAt ('{' :: cs) = none) :
    matchDoubleAt ('{' :: renderChars ctx cs) = none := by
  rcases cs with - | ⟨c2, cs2⟩
  · rw [renderChars_nil]; decide
  · by_cases hc2 : c2 = '{'
    case neg =>
      have hm2 : matchDoubleAt (c2 :: cs2) = none := matchDoubleAt_head_ne hc2
      rw [renderChars_advance ctx hm2]
      exact matchDoubleAt_second_ne hc2
    case pos =>
      subst hc2
      have hnone2 : matchDoubleAt ('{' :: cs2) = none := by
        rcases hmm : matchDoubleAt ('{' :: cs2) with - | ⟨cap, rest⟩
        · rfl
        · obtain ⟨r, heq, hcap, hdrop, hne⟩ := matchDoubleAt_parts hmm
          injection heq with _ h2
          have hdw : cs2.dropWhile (· ≠ '}') = '}' :: '}' :: rest := by
            rw [h2, List.dropWhile_cons, if_pos (by simp)]
            exact hdrop
          have hta : cs2.takeWhile (· ≠ '}') ≠ [] := by
            rw [h2, List.takeWhile_cons, if_pos (by simp)]
            simp
          rw [matchDoubleAt_pos hdw hta] at hm
          cases hm
      rw [renderChars_advance ctx hnone2]
      by_cases htaE : cs2.takeWhile (· ≠ '}') = []
      · rcases cs2 with - | ⟨c3, cs3⟩
        · rw [renderChars_nil]; decide
        · have hc3 : c3 = '}' := by
            by_contra hc3
            rw [List.takeWhile_cons, if_pos (by simpa using hc3)] at htaE
            cases htaE
          subst hc3
          have hm3 : matchDoubleAt ('}' :: cs3) = none :=
            matchDoubleAt_head_ne (by decide)
          rw [renderChars_advance ctx hm3]
          apply matchDoubleAt_none_iff.mpr
          left
          rw [List.takeWhile_cons, if_neg (by simp)]
      · have hnd : ∀ T2, cs2.dropWhile (· ≠ '}') ≠ '}' :: '}' :: T2 := by
          rcases matchDoubleAt_none_iff.mp hm with h | h
          · exact absurd h htaE
          · exact h
        have hRT : cs2.takeWhile (· ≠ '}') ++ cs2.dropWhile (· ≠ '}') = cs2 :=
          List.takeWhile_append_dropWhile _ _
        have hR : ∀ a ∈ cs2.takeWhile (· ≠ '}'), a ≠ '}' := by
          intro a ha
          simpa using List.mem_takeWhile_imp ha
        have hRb : ∀ a ∈ cs2.takeWhile (· ≠ '}'), (fun x => decide (x ≠ '}')) a = true := by
          intro a ha
          simpa using hR a ha
        have hT0 : cs2.dropWhile (· ≠ '}') = [] ∨
            ∃ T3, cs2.dropWhile (· ≠ '}') = '}' :: T3 := dropWhile_shape cs2
        have hrend : renderChars ctx cs2 =
            cs2.takeWhile (· ≠ '}') ++ renderChars ctx (cs2.dropWhile (· ≠ '}')) := by
          conv_lhs => rw [← hRT]
          exact renderChars_prepend_safe ctx hR hT0 hnd
        rw [hrend]
        apply matchDoubleAt_none_iff.mpr
        right
        intro T2
        rw [dropWhile_append_all hRb]
        have hT0x := hT0
        rcases hT0x with hTe | ⟨T3, hT3⟩
        · rw [hTe, renderChars_nil]
          simp
        · rw [hT3]
          have hmT : matchDoubleAt ('}' :: T3) = none :=
            matchDoubleAt_head_ne (by decide)
          rw [renderChars_advance ctx hmT, List.dropWhile_cons, if_neg (by simp)]
          rcases T3 with - | ⟨z, T4⟩
          · rw [renderChars_nil]
            simp
          · have hz : z ≠ '}' := by
              intro hzz
              subst hzz
              exact hnd T4 hT3
            have hbT : ∀ cap rest, matchDoubleAt (z :: T4) = some (cap, rest) →
                (ctx (pyStrip cap)).isSome = true := by
              intro cap rest hmz
              apply hb
              rw [scanDouble_advance hm, scanDouble_advance hnone2, ← hRT]
              rw [scanDouble_prepend_safe hR hT0 hnd, hT3,
                scanDouble_advance (matchDoubleAt_head_ne (by decide)),
                scanDouble_cons hmz]
              exact List.mem_cons_self _ _
            obtain ⟨d, D, hdD, hd⟩ := renderChars_head_ne ctx hGood hz hbT
            rw [hdD]
            intro hcontra
            injection hcontra with _ h2
            injection h2 with h3 _
            exact hd h3

theorem scanDouble_render_empty (ctx : RenderCtx) (hGood : CtxGood ctx) :
    ∀ s, (∀ cap ∈ scanDouble s, (ctx (pyStrip cap)).isSome = true) →
      scanDouble (renderChars ctx s) = [] := by
  intro s
  induction s using scanDouble.induct with
  | case1 s cap rest hm ih =>
    intro hb
    rw [renderChars_cons ctx hm]
    have hcap : (ctx (pyStrip cap)).isSome = true := by
      apply hb
      rw [scanDouble_cons hm]
      exact List.mem_cons_self _ _
    obtain ⟨v, hv⟩ := Option.isSome_iff_exists.mp hcap
    obtain ⟨hne, hbf⟩ := hGood _ _ hv
    have hvb : ∀ a ∈ v, a ≠ '{' := by
      intro a ha hcontra
      subst hcontra
      simp [braceFree] at hbf
      exact hbf.1 ha
    rw [hv, Option.getD_some, scanDouble_prepend_nobrace hvb]
    apply ih
    intro c hc
    apply hb
    rw [scanDouble_cons hm]
    exact List.mem_cons_of_mem _ hc
  | case2 hm =>
    intro _
    rw [renderChars_nil, scanDouble_nil]
  | case3 c cs hm hm2 ih =>
    intro hb
    rw [renderChars_advance ctx hm]
    by_cases hc : c = '{'
    · subst hc
      rw [scanDouble_advance (key_no_new_match ctx hGood hb hm)]
      apply ih
      intro x hx
      apply hb
      rw [scanDouble_advance hm]
      exact hx
    · rw [scanDouble_advance (matchDoubleAt_head_ne hc)]
      apply ih
      intro x hx
      apply hb
      rw [scanDouble_advance hm]
      exact hx

/-- C5 (amended): the round trip holds under the two conditions the
counterexample forces on the supplied values: if every detected
placeholder label of the document's reading-order text is bound, and
every bound value is non-empty and free of brace characters, then
re-scanning the rendered text finds zero double-brace markers. -/
theorem c5_round_trip (ctx : RenderCtx) (hGood : CtxGood ctx) (body : List DocumentNode)
    (hall : ∀ cap ∈ scanDouble (extractText body), (ctx (pyStrip cap)).isSome = true) :
    scanDouble (renderChars ctx (extractText body)) = [] :=
  scanDouble_render_empty ctx hGood _ hall

/-- C5 counterexample: the round trip fails for unrestricted values —
a value that itself contains the marker syntax survives re-parsing, and
an empty value can splice surrounding braces into a brand-new marker
(the second conjunct: with `b` bound to the empty string the rendered
text re-parses with a fresh marker capturing `A`). -/
theorem c5_counterexample :
    scanDouble (renderChars
        (fun l => if l = ['a'] then some ['{', '{', 'b', '}', '}'] else none)
        (extractText [DocumentNode.para ['{', '{', 'a', '}', '}']])) = [['b']] ∧
    scanDouble (renderChars (fun l => if l = ['b'] then some [] else none)
        ['{', '{', 'A', '}', '{', '{', 'b', '}', '}', '}']) = [['A']] := by
  constructor
  · have h1 : extractText [DocumentNode.para ['{', '{', 'a', '}', '}']] =
        ['{', '{', 'a', '}', '}'] := by decide
    rw [h1]
    have h2 : renderChars
        (fun l => if l = ['a'] then some ['{', '{', 'b', '}', '}'] else none)
        ['{', '{', 'a', '}', '}'] = ['{', '{', 'b', '}', '}'] := by
      rw [renderChars_eval]; decide
    rw [h2, scanDouble_eval]
    decide
  · have h2 : renderChars (fun l => if l = ['b'] then some [] else none)
        ['{', '{', 'A', '}', '{', '{', 'b', '}', '}', '}'] =
        ['{', '{', 'A', '}', '}'] := by
      rw [renderChars_eval]; decide
    rw [h2, scanDouble_eval]
    decide

/-- Witness for C5: one placeholder, one safe value. -/
theorem c5_round_trip_witness :
    scanDouble (renderChars (fun l => if l = ['a'] then some ['V'] else none)
      (extractText [DocumentNode.para ['{', '{', 'a', '}', '}']])) = [] := by
  apply c5_round_trip
  · intro l v h
    by_cases hl : l = ['a']
    · subst hl
      simp only [if_true, eq_self_iff_true, if_pos, Option.some.injEq] at h
      rw [← h]
      exact ⟨by simp, by decide⟩
    · simp only [if_neg hl] at h
      cases h
  · intro cap hc
    have h1 : extractText [DocumentNode.para ['{', '{', 'a', '}', '}']] =
        ['{', '{', 'a', '}', '}'] := by decide
    rw [h1, scanDouble_eval] at hc
    have h2 : scanDoubleFuel (['{', '{', 'a', '}', '}'] : Str).length
        ['{', '{', 'a', '}', '}'] = [['a']] := by decide
    rw [h2] at hc
    simp at hc
    subst hc
    decide
